import Mathlib

/-!
# Verification of the p2p_scanner scoring/ranking core

Shallow embedding of the core of `bdneff/p2p_scanner`:

* `backend/app/scoring.py` — `entropy`, `softplus`, `compute_score`
  (floats are modelled as real numbers);
* `backend/app/jobs/poller.py` — `get_top` over a list-of-rows model of the
  `market_snapshots` table (SQLAlchemy nullable Float columns become `Option ℝ`);
* `backend/app/connectors/kalshi.py` — the `_get_json` rate-limit retry loop,
  the per-entity cumulative-volume delta that produces `flow`, and the
  `_implied_p` fallback chain;
* `backend/scripts/generate_site.py` — the publish filter.

Theorems below settle the frozen behavioural claims about these functions.
-/

namespace Scanner

noncomputable section

/-- `EPS` from `backend/app/scoring.py` line 4: `EPS = 1e-9`. -/
def EPS : ℝ := 1e-9

/-- The clamp applied to `p` in `entropy` (`scoring.py` line 7):
`p = min(max(p, EPS), 1 - EPS)`. -/
def clamp01 (p : ℝ) : ℝ := min (max p EPS) (1 - EPS)

/-- `entropy` from `backend/app/scoring.py` lines 6-8:
clamp `p` to `[EPS, 1-EPS]`, then return `-(p*log p + (1-p)*log(1-p))`. -/
def entropy (p : ℝ) : ℝ :=
  -(clamp01 p * Real.log (clamp01 p) + (1 - clamp01 p) * Real.log (1 - clamp01 p))

/-- `softplus` from `backend/app/scoring.py` lines 10-13:
`x` if `x > 30`, else `log1p(exp x) = log (1 + exp x)`. -/
def softplus (x : ℝ) : ℝ :=
  if x > 30 then x else Real.log (1 + Real.exp x)

/-- `ScoreBreakdown` dataclass from `backend/app/scoring.py` lines 15-20. -/
structure ScoreBreakdown where
  z_flow : ℝ
  depth_ratio : ℝ
  H : ℝ
  score : ℝ

/-- `compute_score` from `backend/app/scoring.py` lines 22-27. -/
def compute_score (p flow depth mu sigma : ℝ) : ScoreBreakdown :=
  let z := (flow - mu) / (sigma + EPS)
  let r := flow / (depth + EPS)
  let H := entropy p
  ⟨z, r, H, softplus z * Real.log (1 + max r 0) * H⟩

/-- Rolling mean from `backend/app/jobs/poller.py` line 131:
`mu = sum(hist) / len(hist)`. -/
def muOf (l : List ℝ) : ℝ := l.sum / l.length

/-- Sample variance from `poller.py` line 132:
`var = sum((x - mu)**2 for x in hist) / max(len(hist) - 1, 1)`
(the denominator is the natural-number `max (len - 1) 1`, which matches
Python's `max(len(hist) - 1, 1)` for every length). -/
def varOf (l : List ℝ) : ℝ :=
  (l.map fun x => (x - muOf l) ^ 2).sum / (max (l.length - 1) 1 : ℕ)

/-- `sigma = var ** 0.5` from `poller.py` line 133. -/
def sigmaOf (l : List ℝ) : ℝ := Real.sqrt (varOf l)

/-! ## The observation store and `get_top` (`backend/app/jobs/poller.py`)

The `market_snapshots` table (`backend/app/models.py`) is modelled as a list
of rows; the nullable `Float` columns `p`, `flow`, `depth` become `Option ℝ`.
The optional passthrough columns (`bid`, `ask`, `mid`, `volume_24h`,
`open_interest`) play no role in ranking and are omitted. Timestamps are
abstracted to naturals (only their order matters to the queries). -/

/-- One row of `market_snapshots`. -/
structure Snapshot where
  platform : String
  market_id : String
  title : String
  ts : ℕ
  p : Option ℝ
  flow : Option ℝ
  depth : Option ℝ

/-- `ROLLING_N` from `poller.py` line 24 (default `60`). -/
def ROLLING_N : ℕ := 60

/-- Insertion step for a descending sort by a key (models SQL
`ORDER BY ... DESC`; tie order is unspecified both here and in SQL). -/
def insertDescBy {α β : Type} [LinearOrder β] (key : α → β) (a : α) :
    List α → List α
  | [] => [a]
  | b :: l => if key b < key a then a :: b :: l else b :: insertDescBy key a l

/-- Descending sort by a key. -/
def sortDescBy {α β : Type} [LinearOrder β] (key : α → β) (l : List α) : List α :=
  l.foldr (insertDescBy key) []

/-- The rows for one `(platform, market_id)` key (the SQL `WHERE` clause of
both queries in `get_top`). -/
def rowsFor (db : List Snapshot) (k : String × String) : List Snapshot :=
  db.filter fun s => decide (s.platform = k.1 ∧ s.market_id = k.2)

/-- `poller.py` lines 101-109: the latest snapshot for a key
(`ORDER BY ts DESC LIMIT 1`). -/
def latestFor (db : List Snapshot) (k : String × String) : Option Snapshot :=
  (sortDescBy Snapshot.ts (rowsFor db k)).head?

/-- `poller.py` lines 118-126: the last `ROLLING_N` stored flow values for a
key, newest first (the raw nullable column values). -/
def histFor (db : List Snapshot) (k : String × String) : List (Option ℝ) :=
  ((sortDescBy Snapshot.ts (rowsFor db k)).map Snapshot.flow).take ROLLING_N

/-- The flow history as reals. In the Python source every stored `flow` is a
float written by `poll_once` (line 70), never `NULL`; a `NULL` in the window
would crash `sum(hist)`, so theorems about histories assume all flows present,
under which this list is exactly the window. -/
def flowsFor (db : List Snapshot) (k : String × String) : List ℝ :=
  (histFor db k).reduceOption

/-- One ranked entry of `get_top`'s result (`poller.py` lines 139-159; the
optional passthrough fields are omitted). -/
structure TopEntry where
  platform : String
  market_id : String
  title : String
  ts : ℕ
  p : ℝ
  flow : ℝ
  depth : ℝ
  z_flow : ℝ
  depth_ratio : ℝ
  entropy : ℝ
  score : ℝ

/-- The per-key body of `get_top`'s loop (`poller.py` lines 100-159): `none`
when the key is skipped, otherwise the ranked entry. Skips, in source order:
no latest snapshot; `p`/`flow`/`depth` missing; `p > max_p`; fewer than
`min_hist` stored flow values in the window; `score < min_score`. -/
def scoreEntry (db : List Snapshot) (max_p min_score : ℝ) (min_hist : ℕ)
    (k : String × String) : Option TopEntry :=
  match latestFor db k with
  | none => none
  | some latest =>
    match latest.p, latest.flow, latest.depth with
    | some p, some fl, some d =>
      if max_p < p then none
      else if (histFor db k).length < min_hist then none
      else
        let bd := compute_score p fl d (muOf (flowsFor db k)) (sigmaOf (flowsFor db k))
        if bd.score < min_score then none
        else some ⟨latest.platform, latest.market_id, latest.title, latest.ts,
          p, fl, d, bd.z_flow, bd.depth_ratio, bd.H, bd.score⟩
    | _, _, _ => none

/-- `poller.py` lines 95-97: the distinct `(platform, market_id)` pairs. -/
def distinctKeys (db : List Snapshot) : List (String × String) :=
  (db.map fun s => (s.platform, s.market_id)).dedup

/-- The survivors of `get_top`'s loop, before sorting and truncation. -/
def survivors (db : List Snapshot) (max_p min_score : ℝ) (min_hist : ℕ) :
    List TopEntry :=
  (distinctKeys db).filterMap (scoreEntry db max_p min_score min_hist)

/-- `get_top` from `poller.py` lines 85-162 (defaults: `limit = 25`,
`max_p = 0.98`, `min_score = 0`, `min_hist = 3`): loop over distinct keys,
sort descending by score, truncate to `limit`. -/
def get_top (db : List Snapshot) (limit : ℕ) (max_p min_score : ℝ)
    (min_hist : ℕ) : List TopEntry :=
  (sortDescBy TopEntry.score (survivors db max_p min_score min_hist)).take limit

/-- The inclusion conditions of claim C2, phrased over the store model: a
latest snapshot exists, its `p`/`flow`/`depth` are present, `p ≤ max_p`, the
window holds at least `min_hist` stored flow values, and the score computed
from the rolling baseline (sample std denominator `max(count-1,1)` inside
`varOf`) is at least `min_score`. -/
def Included (db : List Snapshot) (max_p min_score : ℝ) (min_hist : ℕ)
    (k : String × String) : Prop :=
  ∃ s p fl d, latestFor db k = some s ∧
    s.p = some p ∧ s.flow = some fl ∧ s.depth = some d ∧
    p ≤ max_p ∧ min_hist ≤ (histFor db k).length ∧
    min_score ≤ (compute_score p fl d (muOf (flowsFor db k))
      (sigmaOf (flowsFor db k))).score

/-- Concrete three-snapshot history of one market, used to exhibit the effect
of truncation on claim C2. -/
def snapA : Snapshot := ⟨"mock", "m1", "t", 1, some 0.5, some 1, some 1⟩

def snapB : Snapshot := ⟨"mock", "m1", "t", 2, some 0.5, some 1, some 1⟩

def snapC : Snapshot := ⟨"mock", "m1", "t", 3, some 0.5, some 1, some 1⟩

def dbC2 : List Snapshot := [snapA, snapB, snapC]

/-! ## Connector: cumulative-volume deltas (`backend/app/connectors/kalshi.py`
lines 243-245)

`prev = self._prev_volume.get(ticker, vol); flow = max(vol - prev, 0.0);
self._prev_volume[ticker] = vol`. The `_prev_volume` dict is keyed by ticker,
so the state relevant to one entity is just that entity's previous cumulative
volume — `none` before its first observation, in which case `get(ticker, vol)`
defaults to the current volume. -/

/-- Emit the flows for one entity from its successive cumulative-volume
readings, threading the previous-volume state. -/
def flowStepList : Option ℝ → List ℝ → List ℝ
  | _, [] => []
  | prev, v :: vs => max (v - prev.getD v) 0 :: flowStepList (some v) vs

/-- Flows emitted for one entity across successive `fetch_markets` calls of
one connector instance (the instance starts with no `_prev_volume` entry). -/
def flowsOfVolumes (vols : List ℝ) : List ℝ := flowStepList none vols

/-! ## Connector: `_get_json` retry loop (`kalshi.py` lines 50-76)

The loop issues up to `max_retries` HTTP GETs. A 429 response sleeps (timing
is irrelevant to the returned value and is not modelled) and retries; any
other response goes through `raise_for_status()`, which raises exactly for
status codes in `[400, 600)`, otherwise the JSON body is returned. Exhausting
the loop raises the fatal rate-limit `HTTPError`. The successive responses
the server would give are modelled as a function of the attempt index. -/

structure HttpResponse where
  status : ℕ
  body : ℕ

inductive FetchOutcome where
  | success (body : ℕ)
  | httpError (status : ℕ)
  | rateLimited
  deriving DecidableEq

/-- The retry loop from attempt index `i` with the given remaining attempts. -/
def getJsonAux (responses : ℕ → HttpResponse) : ℕ → ℕ → FetchOutcome
  | _, 0 => FetchOutcome.rateLimited
  | i, fuel + 1 =>
    if (responses i).status = 429 then getJsonAux responses (i + 1) fuel
    else if 400 ≤ (responses i).status ∧ (responses i).status < 600 then
      FetchOutcome.httpError (responses i).status
    else FetchOutcome.success (responses i).body

/-- `_get_json(url, max_retries)`; the source default is `max_retries = 6`. -/
def get_json (responses : ℕ → HttpResponse) (max_retries : ℕ) : FetchOutcome :=
  getJsonAux responses 0 max_retries

/-- Responses for the boundary case of claim C5: six 429s, then a success. -/
def respC5 : ℕ → HttpResponse := fun i => if i < 6 then ⟨429, 0⟩ else ⟨200, 7⟩

/-! ## Connector: `_implied_p` fallback chain (`kalshi.py` lines 169-187)

A market record is a JSON-ish dict; a value is a number (anything
`_to_float` parses), an unparseable non-null value, or an explicit null.
`_first_present` returns the first value that is present and non-null —
even an unparseable one, which `_to_float` then maps to `None`. -/

inductive JVal where
  | num (x : ℝ)
  | strv
  | nullv

/-- `_first_present(d, keys)` (`kalshi.py` lines 34-38) composed with the
dict lookup: first key that is present with a non-null value. -/
def first_present (d : List (String × JVal)) : List String → Option JVal
  | [] => none
  | key :: keys =>
    match d.lookup key with
    | some JVal.nullv => first_present d keys
    | some v => some v
    | none => first_present d keys

/-- `_to_float` (`kalshi.py` lines 41-47) on an optional value. -/
def to_float : Option JVal → Option ℝ
  | some (JVal.num x) => some x
  | _ => none

def yesBidKeys : List String := ["yes_bid", "yes_best_bid", "best_yes_bid"]

def yesAskKeys : List String := ["yes_ask", "yes_best_ask", "best_yes_ask"]

def yesPriceKeys : List String := ["yes_price", "yes_mid", "mid_yes"]

def lastPriceKeys : List String := ["last_price", "last_trade_price"]

/-- The `elif yes_price ... elif last_price ...` tail of the chain
(`kalshi.py` lines 178-181): the quoted yes price if present, else the last
trade price. -/
def priceFallback (m : List (String × JVal)) : Option ℝ :=
  match to_float (first_present m yesPriceKeys) with
  | some y => some y
  | none => to_float (first_present m lastPriceKeys)

/-- The `mid_cents` local of `_implied_p` (`kalshi.py` lines 175-181): the
bid/ask midpoint when both quotes are present and positive, else the
fallback chain. -/
def mid_cents (m : List (String × JVal)) : Option ℝ :=
  match to_float (first_present m yesBidKeys),
      to_float (first_present m yesAskKeys) with
  | some b, some a =>
    if 0 < b ∧ 0 < a then some (0.5 * (b + a)) else priceFallback m
  | _, _ => priceFallback m

/-- `p = mid_cents / 100.0; return max(min(p, 0.999), 0.001)`
(`kalshi.py` lines 186-187). -/
def clampP (mc : ℝ) : ℝ := max (min (mc / 100) 0.999) 0.001

/-- `KalshiConnector._implied_p` (`kalshi.py` lines 169-187): mid of positive
yes bid/ask, else quoted yes price, else last trade price; the winner is
divided by 100 and clamped to `[0.001, 0.999]`; `none` if the whole chain
fails. -/
def implied_p (m : List (String × JVal)) : Option ℝ :=
  (mid_cents m).map clampP

/-- The probability `fetch_markets` attaches to an entity (`kalshi.py` lines
228-234): `_implied_p` of the nested market record, falling back to
`_implied_p` of the fetched market detail; the entity is skipped (not
emitted) this cycle when the result is `none`. -/
def emitted_p (m detail : List (String × JVal)) : Option ℝ :=
  match implied_p m with
  | some p => some p
  | none => implied_p detail

/-- The condition under which the bid/ask midpoint branch of `_implied_p`
wins: both quotes present (and parseable) and strictly positive. -/
def midpointOk (m : List (String × JVal)) : Prop :=
  ∃ b a, to_float (first_present m yesBidKeys) = some b ∧
    to_float (first_present m yesAskKeys) = some a ∧ 0 < b ∧ 0 < a

/-! ## Publish filter (`backend/scripts/generate_site.py` lines 151-195)

The five thresholds default to `z_min = 2.5`, `depth_ratio_min = 0.05`,
`entropy_min = 0.45`, `p_min = 0.05`, `p_max = 0.95`. An entry from
`get_top` always carries float `p`, `z_flow`, `depth_ratio`, `entropy`
(see `poller.py` lines 139-151), so the `_opt_float(...) or 0.0` guards
reduce to reading the fields. -/

structure PublishThresholds where
  z_min : ℝ
  dr_min : ℝ
  h_min : ℝ
  p_min : ℝ
  p_max : ℝ

/-- The fields of a ranked entry that the publish filter reads. -/
structure Candidate where
  z_flow : ℝ
  depth_ratio : ℝ
  entropy : ℝ
  p : ℝ

/-- A ranked entry survives the publish filter iff none of the four `continue`
guards fires (`generate_site.py` lines 183-193): `p` within `[p_min, p_max]`,
`z_flow ≥ z_min`, `depth_ratio ≥ dr_min`, `entropy ≥ h_min`. -/
def publishKeep (t : PublishThresholds) (r : Candidate) : Prop :=
  (t.p_min ≤ r.p ∧ r.p ≤ t.p_max) ∧ t.z_min ≤ r.z_flow ∧
    t.dr_min ≤ r.depth_ratio ∧ t.h_min ≤ r.entropy

open Classical in
/-- The publish-filter pass over the ranked list. -/
def publishFilter (t : PublishThresholds) (rs : List Candidate) : List Candidate :=
  rs.filter fun r => decide (publishKeep t r)

/-- The example thresholds of claim C3. -/
def thrC3 : PublishThresholds := ⟨2.5, 0.05, 0.45, 0.05, 0.95⟩

/-- The example candidate of claim C3 that passes. -/
def candPassC3 : Candidate := ⟨3.0, 0.1, 0.5, 0.5⟩

/-- The same candidate with only `p` changed to `0.97`. -/
def candFailC3 : Candidate := ⟨3.0, 0.1, 0.5, 0.97⟩

/-- One 429 then successes, for the C5 witness. -/
def respOkC5 : ℕ → HttpResponse := fun i => if i = 0 then ⟨429, 0⟩ else ⟨200, 5⟩

/-- A server that always returns HTTP 500, for the C5 witness. -/
def respErrC5 : ℕ → HttpResponse := fun _ => ⟨500, 3⟩

/-- One 429, then HTTP 500s, for the C5 witness: a non-429 error arriving
after a rate-limit retry. -/
def respErrAfter429C5 : ℕ → HttpResponse := fun i => if i = 0 then ⟨429, 0⟩ else ⟨500, 9⟩

/-- A market record carrying only a positive bid/ask pair, for the C9
witness. -/
def mBidAsk : List (String × JVal) :=
  [("yes_bid", JVal.num 40), ("yes_ask", JVal.num 60)]

/-! ## Basic facts about the scoring primitives (shared helper lemmas) -/

theorem EPS_pos : (0:ℝ) < EPS := by norm_num [EPS]

theorem EPS_lt_one_sub : EPS < 1 - EPS := by norm_num [EPS]

theorem clamp01_le (p : ℝ) : clamp01 p ≤ 1 - EPS := min_le_right _ _

theorem le_clamp01 (p : ℝ) : EPS ≤ clamp01 p :=
  le_min (le_max_right _ _) EPS_lt_one_sub.le

theorem clamp01_pos (p : ℝ) : 0 < clamp01 p := lt_of_lt_of_le EPS_pos (le_clamp01 p)

theorem clamp01_lt_one (p : ℝ) : clamp01 p < 1 :=
  lt_of_le_of_lt (clamp01_le p) (by norm_num [EPS])

theorem one_sub_clamp01_pos (p : ℝ) : 0 < 1 - clamp01 p :=
  sub_pos.mpr (clamp01_lt_one p)

theorem one_sub_clamp01_lt_one (p : ℝ) : 1 - clamp01 p < 1 := by
  have := clamp01_pos p; linarith

/-- The clamped entropy is strictly positive: both summands are negative. -/
theorem entropy_pos (p : ℝ) : 0 < entropy p := by
  have h1 : clamp01 p * Real.log (clamp01 p) < 0 :=
    mul_neg_of_pos_of_neg (clamp01_pos p)
      (Real.log_neg (clamp01_pos p) (clamp01_lt_one p))
  have h2 : (1 - clamp01 p) * Real.log (1 - clamp01 p) < 0 :=
    mul_neg_of_pos_of_neg (one_sub_clamp01_pos p)
      (Real.log_neg (one_sub_clamp01_pos p) (one_sub_clamp01_lt_one p))
  have : clamp01 p * Real.log (clamp01 p)
      + (1 - clamp01 p) * Real.log (1 - clamp01 p) < 0 := by linarith
  simpa [entropy] using neg_pos.mpr this

/-- `softplus` is strictly positive on both branches. -/
theorem softplus_pos (x : ℝ) : 0 < softplus x := by
  unfold softplus
  split
  · linarith
  · exact Real.log_pos (by have := Real.exp_pos x; linarith)

theorem log_one_add_max_nonneg (r : ℝ) : 0 ≤ Real.log (1 + max r 0) :=
  Real.log_nonneg (by have : (0:ℝ) ≤ max r 0 := le_max_right _ _; linarith)

/-- The composite score is non-negative for all real inputs. -/
theorem compute_score_nonneg (p flow depth mu sigma : ℝ) :
    0 ≤ (compute_score p flow depth mu sigma).score :=
  mul_nonneg
    (mul_nonneg (softplus_pos _).le (log_one_add_max_nonneg _))
    (entropy_pos p).le

/-- The clamp commutes with reflection about `1/2`. -/
theorem clamp01_one_sub (p : ℝ) : clamp01 (1 - p) = 1 - clamp01 p := by
  have heps : EPS < 1 - EPS := EPS_lt_one_sub
  unfold clamp01
  rcases le_total p EPS with h | h
  · rw [max_eq_right h, min_eq_left heps.le,
      max_eq_left (by linarith : EPS ≤ 1 - p),
      min_eq_right (by linarith : 1 - EPS ≤ 1 - p)]
  · rcases le_total p (1 - EPS) with h2 | h2
    · rw [max_eq_left h, min_eq_left h2,
        max_eq_left (by linarith : EPS ≤ 1 - p),
        min_eq_left (by linarith : 1 - p ≤ 1 - EPS)]
    · rw [max_eq_left (le_trans heps.le h2), min_eq_right h2,
        max_eq_right (by linarith : 1 - p ≤ EPS),
        min_eq_left heps.le]
      ring

/-- `entropy` is symmetric about `1/2` (the clamp preserves the symmetry). -/
theorem entropy_one_sub (p : ℝ) : entropy (1 - p) = entropy p := by
  unfold entropy
  rw [clamp01_one_sub, sub_sub_cancel]
  ring

theorem clamp01_eq_self {p : ℝ} (h1 : EPS ≤ p) (h2 : p ≤ 1 - EPS) : clamp01 p = p := by
  unfold clamp01
  rw [max_eq_left h1, min_eq_left h2]

/-- On the clamp, `entropy` coincides with Mathlib's binary entropy. -/
theorem entropy_eq_binEntropy (p : ℝ) : entropy p = Real.binEntropy (clamp01 p) := by
  unfold entropy
  simp only [Real.binEntropy, Real.log_inv]
  ring

theorem entropy_one_half : entropy (1 / 2 : ℝ) = Real.log 2 := by
  rw [entropy_eq_binEntropy, clamp01_eq_self (by norm_num [EPS]) (by norm_num [EPS]),
    one_div, Real.binEntropy_two_inv]

/-- Strict decrease of `entropy` above `1/2`, inside the clamp range. -/
theorem entropy_strictAnti_upper {p1 p2 : ℝ} (h1 : 1 / 2 ≤ p1) (h12 : p1 < p2)
    (h2 : p2 ≤ 1 - EPS) : entropy p2 < entropy p1 := by
  have heps : (EPS : ℝ) ≤ 1 / 2 := by norm_num [EPS]
  have hlt1 : p2 < 1 := lt_of_le_of_lt h2 (by norm_num [EPS])
  have c1 : clamp01 p1 = p1 :=
    clamp01_eq_self (le_trans heps h1) (le_of_lt (lt_of_lt_of_le h12 h2))
  have c2 : clamp01 p2 = p2 := clamp01_eq_self (le_trans (le_trans heps h1) h12.le) h2
  rw [entropy_eq_binEntropy, entropy_eq_binEntropy, c1, c2]
  exact Real.binEntropy_strictAntiOn
    (Set.mem_Icc.mpr ⟨by rw [← one_div]; exact h1, by linarith⟩)
    (Set.mem_Icc.mpr ⟨by rw [← one_div]; linarith, hlt1.le⟩) h12

/-- `softplus` is strictly increasing on the `log1p`-branch. -/
theorem softplus_lt_of_le_thirty {x1 x2 : ℝ} (h : x1 < x2) (h2 : x2 ≤ 30) :
    softplus x1 < softplus x2 := by
  unfold softplus
  rw [if_neg (by linarith : ¬ x1 > 30), if_neg (by linarith : ¬ x2 > 30)]
  exact Real.log_lt_log (by positivity) (by linarith [Real.exp_lt_exp.mpr h])

/-- `softplus` is strictly increasing on the overflow-guard branch. -/
theorem softplus_lt_of_thirty_lt {x1 x2 : ℝ} (h1 : 30 < x1) (h : x1 < x2) :
    softplus x1 < softplus x2 := by
  unfold softplus
  rw [if_pos h1, if_pos (lt_trans h1 h)]
  exact h

theorem softplus_zero : softplus 0 = Real.log 2 := by
  unfold softplus
  rw [if_neg (by norm_num), Real.exp_zero]
  norm_num

theorem muOf_replicate {k : ℕ} (hk : 0 < k) (v : ℝ) : muOf (List.replicate k v) = v := by
  have hkr : (k : ℝ) ≠ 0 := Nat.cast_ne_zero.mpr hk.ne'
  unfold muOf
  rw [List.sum_replicate, List.length_replicate, nsmul_eq_mul]
  exact mul_div_cancel_left₀ v hkr

/-! ## Facts about the descending sort and the `get_top` pipeline -/

theorem sortDescBy_cons {α β : Type} [LinearOrder β] (key : α → β) (a : α)
    (l : List α) : sortDescBy key (a :: l) = insertDescBy key a (sortDescBy key l) :=
  rfl

theorem mem_insertDescBy {α β : Type} [LinearOrder β] (key : α → β) (a x : α)
    (l : List α) : x ∈ insertDescBy key a l ↔ x = a ∨ x ∈ l := by
  induction l with
  | nil => simp [insertDescBy]
  | cons b t ih =>
    simp only [insertDescBy]
    split_ifs
    · simp
    · simp only [List.mem_cons, ih]
      tauto

theorem mem_sortDescBy {α β : Type} [LinearOrder β] (key : α → β) (x : α)
    (l : List α) : x ∈ sortDescBy key l ↔ x ∈ l := by
  induction l with
  | nil => simp [sortDescBy]
  | cons a t ih =>
    rw [sortDescBy_cons, mem_insertDescBy]
    simp [ih]

theorem pairwise_insertDescBy {α β : Type} [LinearOrder β] (key : α → β) (a : α)
    {l : List α} (h : l.Pairwise fun x y => key y ≤ key x) :
    (insertDescBy key a l).Pairwise fun x y => key y ≤ key x := by
  induction l with
  | nil => simp [insertDescBy]
  | cons b t ih =>
    rw [List.pairwise_cons] at h
    simp only [insertDescBy]
    split_ifs with hba
    · refine List.Pairwise.cons ?_ (List.Pairwise.cons h.1 h.2)
      intro y hy
      rcases List.mem_cons.mp hy with rfl | hyt
      · exact hba.le
      · exact le_trans (h.1 y hyt) hba.le
    · refine List.Pairwise.cons ?_ (ih h.2)
      intro y hy
      rcases (mem_insertDescBy key a y t).mp hy with rfl | hyt
      · exact not_lt.mp hba
      · exact h.1 y hyt

theorem pairwise_sortDescBy {α β : Type} [LinearOrder β] (key : α → β)
    (l : List α) : (sortDescBy key l).Pairwise fun x y => key y ≤ key x := by
  induction l with
  | nil => simp [sortDescBy]
  | cons a t ih =>
    rw [sortDescBy_cons]
    exact pairwise_insertDescBy key a ih

theorem mem_of_latestFor {db : List Snapshot} {k : String × String} {s : Snapshot}
    (h : latestFor db k = some s) : s ∈ rowsFor db k := by
  unfold latestFor at h
  have hm : s ∈ sortDescBy Snapshot.ts (rowsFor db k) := by
    cases hl : sortDescBy Snapshot.ts (rowsFor db k) with
    | nil => rw [hl] at h; simp at h
    | cons a t =>
      rw [hl] at h
      simp only [List.head?_cons, Option.some.injEq] at h
      rw [← h]
      exact List.mem_cons_self a t
  exact (mem_sortDescBy _ _ _).mp hm

theorem rowsFor_key {db : List Snapshot} {k : String × String} {s : Snapshot}
    (h : s ∈ rowsFor db k) : s.platform = k.1 ∧ s.market_id = k.2 ∧ s ∈ db := by
  unfold rowsFor at h
  rw [List.mem_filter] at h
  exact ⟨(of_decide_eq_true h.2).1, (of_decide_eq_true h.2).2, h.1⟩

theorem latestFor_mem_distinctKeys {db : List Snapshot} {k : String × String}
    {s : Snapshot} (h : latestFor db k = some s) : k ∈ distinctKeys db := by
  obtain ⟨h1, h2, h3⟩ := rowsFor_key (mem_of_latestFor h)
  unfold distinctKeys
  rw [List.mem_dedup, List.mem_map]
  exact ⟨s, h3, by rw [h1, h2]⟩

/-- Destructing a successful `scoreEntry`: the key is skipped by none of the
five checks, and the emitted entry carries the key's platform and market id. -/
theorem scoreEntry_some_elim {db : List Snapshot} {mp ms : ℝ} {mh : ℕ}
    {k : String × String} {e : TopEntry}
    (h : scoreEntry db mp ms mh k = some e) :
    Included db mp ms mh k ∧ e.platform = k.1 ∧ e.market_id = k.2 := by
  simp only [scoreEntry] at h
  split at h
  · exact absurd h (by simp)
  next latest hl =>
    split at h
    next p fl d hp hf hd =>
      split_ifs at h with h1 h2 h3
      simp only [Option.some.injEq] at h
      obtain ⟨hkp, hkm, _⟩ := rowsFor_key (mem_of_latestFor hl)
      refine ⟨⟨latest, p, fl, d, hl, hp, hf, hd,
        not_lt.mp h1, not_lt.mp h2, not_lt.mp h3⟩, ?_, ?_⟩
      · rw [← h]; exact hkp
      · rw [← h]; exact hkm
    next h' => exact absurd h (by simp)

/-- A key meeting all the inclusion conditions produces an entry. -/
theorem scoreEntry_isSome_of_included {db : List Snapshot} {mp ms : ℝ} {mh : ℕ}
    {k : String × String} (h : Included db mp ms mh k) :
    (scoreEntry db mp ms mh k).isSome := by
  obtain ⟨s, p, fl, d, hl, hp, hf, hd, hmp, hlen, hsc⟩ := h
  simp only [scoreEntry, hl, hp, hf, hd]
  rw [if_neg (not_lt.mpr hmp), if_neg (not_lt.mpr hlen), if_neg (not_lt.mpr hsc)]
  rfl

/-- The concrete market of `dbC2` meets every inclusion condition of
`get_top` at the default thresholds. -/
theorem dbC2_included : Included dbC2 0.98 0 3 ("mock", "m1") := by
  refine ⟨snapC, 0.5, 1, 1, ?_, rfl, rfl, rfl, by norm_num, ?_,
    compute_score_nonneg _ _ _ _ _⟩
  · rfl
  · decide

/-! ## Facts about the volume-delta state machine and the retry loop -/

theorem flowStepList_nonneg (prev : Option ℝ) (vols : List ℝ) (f : ℝ)
    (hf : f ∈ flowStepList prev vols) : 0 ≤ f := by
  induction vols generalizing prev with
  | nil => simp [flowStepList] at hf
  | cons v vs ih =>
    simp only [flowStepList, List.mem_cons] at hf
    rcases hf with rfl | hmem
    · exact le_max_right _ _
    · exact ih (some v) hmem

theorem flowStepList_eq_zipWith (vs : List ℝ) (p : ℝ) :
    flowStepList (some p) vs =
      List.zipWith (fun prev cur => max (cur - prev) 0) (p :: vs) vs := by
  induction vs generalizing p with
  | nil => simp [flowStepList]
  | cons v t ih =>
    simp only [flowStepList, List.zipWith, Option.getD_some]
    rw [ih]

theorem getJsonAux_rateLimited (responses : ℕ → HttpResponse) (fuel : ℕ) :
    ∀ i : ℕ, (∀ j, j < fuel → (responses (i + j)).status = 429) →
      getJsonAux responses i fuel = FetchOutcome.rateLimited := by
  induction fuel with
  | zero => intro i _; rfl
  | succ n ih =>
    intro i h
    have h0 : (responses i).status = 429 := by
      have := h 0 n.succ_pos
      simpa using this
    simp only [getJsonAux, h0, if_pos]
    exact ih (i + 1) fun j hj => by
      have hle := h (j + 1) (Nat.succ_lt_succ hj)
      rwa [show i + (j + 1) = i + 1 + j by omega] at hle

theorem getJsonAux_success (responses : ℕ → HttpResponse) (N : ℕ) :
    ∀ fuel i : ℕ, N < fuel →
      (∀ j, j < N → (responses (i + j)).status = 429) →
      (responses (i + N)).status < 400 →
      getJsonAux responses i fuel = FetchOutcome.success (responses (i + N)).body := by
  induction N with
  | zero =>
    intro fuel i hfuel _ hok
    obtain ⟨f, rfl⟩ := Nat.exists_eq_succ_of_ne_zero (Nat.pos_iff_ne_zero.mp hfuel)
    simp only [Nat.add_zero] at hok
    have h429 : (responses i).status ≠ 429 := by omega
    simp only [getJsonAux, if_neg h429]
    rw [if_neg (by omega), Nat.add_zero]
  | succ n ih =>
    intro fuel i hfuel h429 hok
    obtain ⟨f, rfl⟩ := Nat.exists_eq_succ_of_ne_zero (Nat.pos_iff_ne_zero.mp
      (Nat.lt_of_lt_of_le (Nat.zero_lt_succ n) hfuel.le))
    have h0 : (responses i).status = 429 := by
      have := h429 0 n.succ_pos
      simpa using this
    simp only [getJsonAux, h0, if_pos]
    have hres := ih f (i + 1) (Nat.lt_of_succ_lt_succ hfuel) (fun j hj => by
      have hle := h429 (j + 1) (Nat.succ_lt_succ hj)
      rwa [show i + (j + 1) = i + 1 + j by omega] at hle)
      (by rwa [show i + 1 + n = i + (n + 1) by omega])
    rw [hres, show i + 1 + n = i + (n + 1) by omega]

theorem getJsonAux_error (responses : ℕ → HttpResponse) (N : ℕ) :
    ∀ fuel i : ℕ, N < fuel →
      (∀ j, j < N → (responses (i + j)).status = 429) →
      (responses (i + N)).status ≠ 429 →
      400 ≤ (responses (i + N)).status → (responses (i + N)).status < 600 →
      getJsonAux responses i fuel = FetchOutcome.httpError (responses (i + N)).status := by
  induction N with
  | zero =>
    intro fuel i hfuel _ h429 hlo hhi
    obtain ⟨f, rfl⟩ := Nat.exists_eq_succ_of_ne_zero (Nat.pos_iff_ne_zero.mp hfuel)
    simp only [Nat.add_zero] at h429 hlo hhi
    simp only [getJsonAux, if_neg h429]
    rw [if_pos ⟨hlo, hhi⟩, Nat.add_zero]
  | succ n ih =>
    intro fuel i hfuel hconsec h429 hlo hhi
    obtain ⟨f, rfl⟩ := Nat.exists_eq_succ_of_ne_zero (Nat.pos_iff_ne_zero.mp
      (Nat.lt_of_lt_of_le (Nat.zero_lt_succ n) hfuel.le))
    have h0 : (responses i).status = 429 := by
      have := hconsec 0 n.succ_pos
      simpa using this
    simp only [getJsonAux, h0, if_pos]
    have heq : i + 1 + n = i + (n + 1) := by omega
    have hres := ih f (i + 1) (Nat.lt_of_succ_lt_succ hfuel) (fun j hj => by
      have hle := hconsec (j + 1) (Nat.succ_lt_succ hj)
      rwa [show i + (j + 1) = i + 1 + j by omega] at hle)
      (by rwa [heq]) (by rwa [heq]) (by rwa [heq])
    rw [hres, heq]

/-! ## Facts about the `_implied_p` fallback chain -/

theorem clampP_mem (mc : ℝ) : 0.001 ≤ clampP mc ∧ clampP mc ≤ 0.999 :=
  ⟨le_max_right _ _, max_le (min_le_right _ _) (by norm_num)⟩

theorem implied_p_range {m : List (String × JVal)} {p : ℝ}
    (h : implied_p m = some p) : 0.001 ≤ p ∧ p ≤ 0.999 := by
  simp only [implied_p, Option.map_eq_some'] at h
  obtain ⟨mc, _, rfl⟩ := h
  exact clampP_mem mc

theorem mid_cents_of_midpoint {m : List (String × JVal)} {b a : ℝ}
    (hb : to_float (first_present m yesBidKeys) = some b)
    (ha : to_float (first_present m yesAskKeys) = some a)
    (h0b : 0 < b) (h0a : 0 < a) : mid_cents m = some (0.5 * (b + a)) := by
  simp only [mid_cents, hb, ha, if_pos (And.intro h0b h0a)]

theorem mid_cents_of_not_midpoint {m : List (String × JVal)}
    (h : ¬ midpointOk m) : mid_cents m = priceFallback m := by
  unfold mid_cents
  cases hb : to_float (first_present m yesBidKeys) with
  | none => rfl
  | some b =>
    cases ha : to_float (first_present m yesAskKeys) with
    | none => rfl
    | some a =>
      show (if 0 < b ∧ 0 < a then some (0.5 * (b + a)) else priceFallback m) =
        priceFallback m
      exact if_neg fun hc => h ⟨b, a, hb, ha, hc.1, hc.2⟩

theorem priceFallback_of_yes {m : List (String × JVal)} {y : ℝ}
    (hy : to_float (first_present m yesPriceKeys) = some y) :
    priceFallback m = some y := by
  simp only [priceFallback, hy]

theorem priceFallback_of_none {m : List (String × JVal)}
    (hy : to_float (first_present m yesPriceKeys) = none) :
    priceFallback m = to_float (first_present m lastPriceKeys) := by
  simp only [priceFallback, hy]

theorem publishFilter_nil (t : PublishThresholds) : publishFilter t [] = [] := rfl

open Classical in
theorem publishFilter_cons (t : PublishThresholds) (r : Candidate)
    (rs : List Candidate) :
    publishFilter t (r :: rs) =
      if publishKeep t r then r :: publishFilter t rs else publishFilter t rs := by
  simp only [publishFilter, List.filter]
  by_cases h : publishKeep t r
  · rw [decide_eq_true h, if_pos h]
  · rw [decide_eq_false h, if_neg h]

/-! ## Claim theorems: scoring -/

/-- Claim C1: `compute_score` returns the breakdown
`z_flow = (flow - mu)/(sigma + 1e-9)`, `depth_ratio = flow/(depth + 1e-9)`,
`H = entropy p` (with the clamp to `[1e-9, 1-1e-9]` inside `entropy`), and
`score = softplus z_flow * log(1 + max depth_ratio 0) * H`; moreover a constant
flow history of `k > 0` copies of `v` has mean `v`, so latest flow `v` gives
`z_flow = 0`. -/
theorem claim_C1_compute_score :
    (∀ p flow depth mu sigma : ℝ,
      (compute_score p flow depth mu sigma).z_flow = (flow - mu) / (sigma + EPS) ∧
      (compute_score p flow depth mu sigma).depth_ratio = flow / (depth + EPS) ∧
      (compute_score p flow depth mu sigma).H = entropy p ∧
      (compute_score p flow depth mu sigma).score =
        softplus ((flow - mu) / (sigma + EPS)) *
          Real.log (1 + max (flow / (depth + EPS)) 0) * entropy p) ∧
    (∀ (k : ℕ) (v p depth : ℝ), 0 < k →
      muOf (List.replicate k v) = v ∧
      (compute_score p v depth (muOf (List.replicate k v))
        (sigmaOf (List.replicate k v))).z_flow = 0) := by
  refine ⟨fun p flow depth mu sigma => ⟨rfl, rfl, rfl, rfl⟩, fun k v p depth hk => ?_⟩
  refine ⟨muOf_replicate hk v, ?_⟩
  simp only [compute_score, muOf_replicate hk v, sub_self, zero_div]

/-- Witness for C1 at `k = 3`, `v = 2`. -/
theorem claim_C1_witness :
    muOf (List.replicate 3 (2:ℝ)) = 2 ∧
    (compute_score 0.5 2 1 (muOf (List.replicate 3 (2:ℝ)))
      (sigmaOf (List.replicate 3 (2:ℝ)))).z_flow = 0 :=
  claim_C1_compute_score.2 3 2 0.5 1 (by norm_num)

/-- Claim C7 fails as stated: the clamp makes `entropy` constant on
`[1 - 1e-9, 1]`, so for `p1 = 1 - 7e-10 < p2 = 1 - 4e-10` (both in `[1/2, 1)`)
the claimed strict decrease `entropy p1 > entropy p2` is violated. -/
theorem claim_C7_counterexample :
    ((1:ℝ) / 2 ≤ 1 - 7e-10) ∧ ((1:ℝ) - 7e-10 < 1 - 4e-10) ∧ ((1:ℝ) - 4e-10 < 1) ∧
    ¬ entropy (1 - 4e-10) < entropy (1 - 7e-10) := by
  refine ⟨by norm_num, by norm_num, by norm_num, ?_⟩
  have h1 : clamp01 (1 - 7e-10) = 1 - EPS := by
    unfold clamp01
    rw [max_eq_left (by norm_num [EPS]), min_eq_right (by norm_num [EPS])]
  have h2 : clamp01 (1 - 4e-10) = 1 - EPS := by
    unfold clamp01
    rw [max_eq_left (by norm_num [EPS]), min_eq_right (by norm_num [EPS])]
  unfold entropy
  rw [h1, h2]
  exact lt_irrefl _

/-- Claim C7 (amended): `entropy p = entropy (1-p)` for every real `p`;
`entropy (1/2) = log 2`; and `entropy` strictly decreases moving away from
`1/2` within the clamp range `[1e-9, 1 - 1e-9]` (outside it the clamp makes
`entropy` constant). -/
theorem claim_C7_entropy :
    (∀ p : ℝ, entropy (1 - p) = entropy p) ∧
    entropy (1 / 2 : ℝ) = Real.log 2 ∧
    (∀ p1 p2 : ℝ, 1 / 2 ≤ p1 → p1 < p2 → p2 ≤ 1 - EPS → entropy p2 < entropy p1) ∧
    (∀ p1 p2 : ℝ, EPS ≤ p2 → p2 < p1 → p1 ≤ 1 / 2 → entropy p2 < entropy p1) := by
  refine ⟨entropy_one_sub, entropy_one_half,
    fun p1 p2 h1 h12 h2 => entropy_strictAnti_upper h1 h12 h2, ?_⟩
  intro p1 p2 h1 h12 h2
  have h := @entropy_strictAnti_upper (1 - p1) (1 - p2)
    (by linarith) (by linarith) (by linarith)
  rwa [entropy_one_sub, entropy_one_sub] at h

/-- Witness for C7 on the strictly-decreasing part, at `p1 = 0.55 < p2 = 0.6`. -/
theorem claim_C7_witness : entropy (0.6 : ℝ) < entropy (0.55 : ℝ) :=
  claim_C7_entropy.2.2.1 0.55 0.6 (by norm_num) (by norm_num) (by norm_num [EPS])

/-- Claim C8 fails as stated: across the overflow cutoff the two branches
overlap, e.g. `softplus 30 = log (1 + e^30) > 30 + 1e-14 = softplus (30 + 1e-14)`,
so `softplus` is not strictly increasing over all reals. -/
theorem claim_C8_counterexample :
    ((30:ℝ) < 30 + 1e-14) ∧ ¬ softplus 30 < softplus (30 + 1e-14) := by
  refine ⟨by norm_num, ?_⟩
  have hs2 : softplus (30 + 1e-14) = 30 + 1e-14 := by
    unfold softplus
    rw [if_pos (by norm_num)]
  have hs1 : softplus 30 = Real.log (1 + Real.exp 30) := by
    unfold softplus
    rw [if_neg (by norm_num)]
  have hE : Real.exp 30 < 3.3e13 := by
    have h30 : Real.exp 30 = Real.exp 1 ^ 30 := by
      rw [← Real.exp_nat_mul]
      norm_num
    calc Real.exp 30 = Real.exp 1 ^ 30 := h30
      _ < 2.7182818286 ^ 30 :=
          pow_lt_pow_left₀ Real.exp_one_lt_d9 (Real.exp_pos 1).le (by norm_num)
      _ < 3.3e13 := by norm_num
  have ht : Real.exp 1e-14 ≤ 1 + 3e-14 := by
    have h1 : 1 - 1e-14 ≤ Real.exp (-1e-14) := by
      have := Real.add_one_le_exp (-1e-14)
      linarith
    have h2 : Real.exp (-1e-14) = (Real.exp 1e-14)⁻¹ := Real.exp_neg _
    have h3 : Real.exp 1e-14 * (1 - 1e-14) ≤ 1 := by
      have h4 := mul_le_mul_of_nonneg_left (h2 ▸ h1) (Real.exp_pos 1e-14).le
      rwa [mul_inv_cancel₀ (Real.exp_ne_zero _)] at h4
    have h5 : Real.exp 1e-14 ≤ Real.exp 1 := Real.exp_le_exp.mpr (by norm_num)
    have h6 : Real.exp 1 < 2.7182818286 := Real.exp_one_lt_d9
    nlinarith [Real.exp_pos 1e-14]
  have hkey : 30 + 1e-14 < Real.log (1 + Real.exp 30) := by
    rw [Real.lt_log_iff_exp_lt (by positivity), Real.exp_add]
    nlinarith [Real.exp_pos 30, Real.exp_pos 1e-14]
  rw [hs1, hs2]
  exact not_lt.mpr hkey.le

/-- Claim C8 (amended): `softplus` is strictly increasing on each branch —
on inputs `≤ 30` and on inputs `> 30` — and `softplus 0 = log 2 ≈ 0.6931`
(strictness can fail only across the `x = 30` overflow cutoff). -/
theorem claim_C8_softplus :
    (∀ x1 x2 : ℝ, x1 < x2 → x2 ≤ 30 → softplus x1 < softplus x2) ∧
    (∀ x1 x2 : ℝ, 30 < x1 → x1 < x2 → softplus x1 < softplus x2) ∧
    softplus 0 = Real.log 2 :=
  ⟨fun _ _ h h2 => softplus_lt_of_le_thirty h h2,
   fun _ _ h1 h => softplus_lt_of_thirty_lt h1 h,
   softplus_zero⟩

/-- Witness for C8 on both branches. -/
theorem claim_C8_witness : softplus (0:ℝ) < softplus 1 ∧ softplus (31:ℝ) < softplus 32 :=
  ⟨claim_C8_softplus.1 0 1 (by norm_num) (by norm_num),
   claim_C8_softplus.2.1 31 32 (by norm_num) (by norm_num)⟩

/-- Claim C10: the score factors are positive/non-negative (softplus is always
positive, `log(1 + max(depth_ratio, 0))` is non-negative, the clamped entropy
is positive), so the score is non-negative whenever `depth ≥ 0` and
`sigma ≥ 0`; hence the `score < min_score` skip in `get_top` never fires with
the default floor `min_score = 0`. -/
theorem claim_C10_score_nonneg :
    (∀ x : ℝ, 0 < softplus x) ∧
    (∀ r : ℝ, 0 ≤ Real.log (1 + max r 0)) ∧
    (∀ p : ℝ, 0 < entropy p) ∧
    (∀ p flow depth mu sigma : ℝ, 0 ≤ depth → 0 ≤ sigma →
      0 ≤ (compute_score p flow depth mu sigma).score) ∧
    (∀ p flow depth mu sigma : ℝ, ¬ (compute_score p flow depth mu sigma).score < 0) :=
  ⟨softplus_pos, log_one_add_max_nonneg, entropy_pos,
   fun p fl d mu s _ _ => compute_score_nonneg p fl d mu s,
   fun p fl d mu s => not_lt.mpr (compute_score_nonneg p fl d mu s)⟩

/-- Witness for C10 at a concrete input. -/
theorem claim_C10_witness : 0 ≤ (compute_score 0.5 1 1 1 1).score :=
  claim_C10_score_nonneg.2.2.2.1 0.5 1 1 1 1 (by norm_num) (by norm_num)

/-! ## Claim theorems: the `get_top` pipeline -/

/-- Claim C2 fails as stated: the final truncation to `limit` can exclude a
pair that meets every inclusion condition. With `limit = 0`, the market
`("mock", "m1")` of `dbC2` (three snapshots, `p = 0.5 ≤ 0.98`, three stored
flow values, score `≥ 0`) satisfies all conditions, yet `get_top` returns no
entry for it. -/
theorem claim_C2_counterexample :
    get_top dbC2 0 0.98 0 3 = [] ∧ Included dbC2 0.98 0 3 ("mock", "m1") :=
  ⟨by simp [get_top], dbC2_included⟩

/-- Claim C2 (amended): before the descending-score sort and truncation to
`limit`, the survivor list contains an entry for a distinct
`(platform, market_id)` pair if and only if: a latest snapshot exists, its
`p`, `flow`, `depth` are present, `p ≤ max_p`, the window (capped at
`ROLLING_N = 60`) holds at least `min_hist` stored flow values, and the score
computed with sample-std denominator `max(count-1,1)` is at least
`min_score`; the returned list is drawn from these survivors (the pair is in
`get_top`'s output exactly when it additionally ranks within the top
`limit`). -/
theorem claim_C2_inclusion :
    ∀ (db : List Snapshot) (max_p min_score : ℝ) (min_hist : ℕ)
      (k : String × String),
      ((∃ e, e ∈ survivors db max_p min_score min_hist ∧
          e.platform = k.1 ∧ e.market_id = k.2) ↔
        Included db max_p min_score min_hist k) ∧
      (∀ (limit : ℕ) (e : TopEntry),
        e ∈ get_top db limit max_p min_score min_hist →
        e ∈ survivors db max_p min_score min_hist) := by
  intro db mp ms mh k
  refine ⟨⟨?_, ?_⟩, ?_⟩
  · rintro ⟨e, he, hp1, hp2⟩
    obtain ⟨k', hk', hsome⟩ := List.mem_filterMap.mp he
    obtain ⟨hinc, he1, he2⟩ := scoreEntry_some_elim hsome
    have hkk : k' = k := Prod.ext (by rw [← he1, hp1]) (by rw [← he2, hp2])
    rwa [hkk] at hinc
  · intro hinc
    obtain ⟨s, p, fl, d, hl, hrest⟩ := hinc
    have hsome := scoreEntry_isSome_of_included ⟨s, p, fl, d, hl, hrest⟩
    obtain ⟨e, he⟩ := Option.isSome_iff_exists.mp hsome
    obtain ⟨_, he1, he2⟩ := scoreEntry_some_elim he
    exact ⟨e, List.mem_filterMap.mpr ⟨k, latestFor_mem_distinctKeys hl, he⟩, he1, he2⟩
  · intro limit e he
    simp only [get_top] at he
    exact (mem_sortDescBy _ _ _).mp (List.mem_of_mem_take he)

/-- Witness for C2: the qualifying market of `dbC2` does appear among the
survivors. -/
theorem claim_C2_witness :
    ∃ e, e ∈ survivors dbC2 0.98 0 3 ∧ e.platform = "mock" ∧ e.market_id = "m1" :=
  (claim_C2_inclusion dbC2 0.98 0 3 ("mock", "m1")).1.mpr dbC2_included

/-- Claim C6: for every stored history and arguments, `get_top` returns a
list sorted in descending order of score (each entry's score is at least
every later entry's) whose length is at most the requested limit. -/
theorem claim_C6_sorted :
    ∀ (db : List Snapshot) (limit : ℕ) (max_p min_score : ℝ) (min_hist : ℕ),
      ((get_top db limit max_p min_score min_hist).Pairwise
        fun a b => b.score ≤ a.score) ∧
      (get_top db limit max_p min_score min_hist).length ≤ limit := by
  intro db limit mp ms mh
  constructor
  · exact List.Pairwise.sublist (List.take_sublist _ _)
      (pairwise_sortDescBy TopEntry.score _)
  · simp [get_top, List.length_take]

/-! ## Claim theorems: connector and publish filter -/

/-- Claim C4: for one entity's successive cumulative-volume readings, every
emitted flow is `max(cur - prev, 0)` (the first tick defaults `prev` to the
current volume and emits 0), hence never negative; `[100, 100, 150]` gives
flows `[0, 0, 50]` and the regression `[150, 100]` gives `[0, 0]`. -/
theorem claim_C4_flow :
    (∀ (vols : List ℝ) (f : ℝ), f ∈ flowsOfVolumes vols → 0 ≤ f) ∧
    (∀ (v : ℝ) (vs : List ℝ), flowsOfVolumes (v :: vs) =
      0 :: List.zipWith (fun prev cur => max (cur - prev) 0) (v :: vs) vs) ∧
    flowsOfVolumes [100, 100, 150] = [0, 0, 50] ∧
    flowsOfVolumes [150, 100] = [0, 0] := by
  have hmax0 : ∀ v : ℝ, max (v - v) 0 = 0 := fun v => by simp
  refine ⟨fun vols f hf => flowStepList_nonneg none vols f hf, ?_, ?_, ?_⟩
  · intro v vs
    show flowStepList none (v :: vs) = _
    simp only [flowStepList, Option.getD_none, flowStepList_eq_zipWith, hmax0]
  · show flowStepList none [100, 100, 150] = _
    simp only [flowStepList, Option.getD_none, Option.getD_some]
    norm_num
  · show flowStepList none [150, 100] = _
    simp only [flowStepList, Option.getD_none, Option.getD_some]
    norm_num

/-- Witness for C4: the third flow of the `[100, 100, 150]` run is
non-negative. -/
theorem claim_C4_witness : (0:ℝ) ≤ 50 :=
  claim_C4_flow.1 [100, 100, 150] 50 (by rw [claim_C4_flow.2.2.1]; simp)

/-- Claim C5 fails at the boundary: with `max_retries = 6`, six consecutive
429s exhaust every attempt, so the success waiting at attempt index 6 is never
issued — `N = max_retries` consecutive rate limits raise the fatal error even
though `N ≤` the attempt ceiling. -/
theorem claim_C5_counterexample :
    (∀ i, i < 6 → (respC5 i).status = 429) ∧
    (respC5 6).status = 200 ∧
    get_json respC5 6 = FetchOutcome.rateLimited ∧
    get_json respC5 6 ≠ FetchOutcome.success (respC5 6).body := by
  refine ⟨by decide, rfl, by decide, by decide⟩

/-- Claim C5 (amended): if every one of the `max_retries` attempts receives a
429, `_get_json` raises the fatal rate-limit error; if `N < max_retries`
consecutive 429s are followed by a success response, the call returns that
response's JSON; and any non-429 HTTP error response (status in `[400, 600)`)
— whether on the first attempt or reached after any number of 429 retries —
raises immediately with that status, with no retry, whatever the later
responses would have been. -/
theorem claim_C5_retry :
    (∀ (responses : ℕ → HttpResponse) (max_retries : ℕ),
      (∀ i, i < max_retries → (responses i).status = 429) →
      get_json responses max_retries = FetchOutcome.rateLimited) ∧
    (∀ (responses : ℕ → HttpResponse) (max_retries N : ℕ), N < max_retries →
      (∀ i, i < N → (responses i).status = 429) →
      (responses N).status < 400 →
      get_json responses max_retries = FetchOutcome.success (responses N).body) ∧
    (∀ (responses : ℕ → HttpResponse) (max_retries N : ℕ), N < max_retries →
      (∀ i, i < N → (responses i).status = 429) →
      (responses N).status ≠ 429 →
      400 ≤ (responses N).status → (responses N).status < 600 →
      get_json responses max_retries = FetchOutcome.httpError (responses N).status) := by
  refine ⟨?_, ?_, ?_⟩
  · intro responses mr h
    exact getJsonAux_rateLimited responses mr 0 fun j hj => by
      simpa using h j hj
  · intro responses mr N hN h429 hok
    have := getJsonAux_success responses N mr 0 hN
      (fun j hj => by simpa using h429 j hj) (by simpa using hok)
    simpa using this
  · intro responses mr N hN hconsec h429 hlo hhi
    have := getJsonAux_error responses N mr 0 hN
      (fun j hj => by simpa using hconsec j hj)
      (by simpa using h429) (by simpa using hlo) (by simpa using hhi)
    simpa using this

/-- Witness for C5: all three behaviours at concrete response sequences,
including a non-429 error on the first attempt and one reached after a 429
retry. -/
theorem claim_C5_witness :
    get_json (fun _ => ⟨429, 0⟩) 2 = FetchOutcome.rateLimited ∧
    get_json respOkC5 6 = FetchOutcome.success (respOkC5 1).body ∧
    get_json respErrC5 6 = FetchOutcome.httpError (respErrC5 0).status ∧
    get_json respErrAfter429C5 6 = FetchOutcome.httpError (respErrAfter429C5 1).status :=
  ⟨claim_C5_retry.1 _ 2 (by decide),
   claim_C5_retry.2.1 respOkC5 6 1 (by decide) (by decide) (by decide),
   claim_C5_retry.2.2 respErrC5 6 0 (by decide) (by decide) (by decide) (by decide)
     (by decide),
   claim_C5_retry.2.2 respErrAfter429C5 6 1 (by decide) (by decide) (by decide)
     (by decide) (by decide)⟩

/-- Claim C3 fails as stated: the filter removes any entry failing at least
one condition, not only entries failing all four. The claim's own example
candidate with `p = 0.97` fails only the `p`-range condition — in particular
it does not fail all four — yet it is removed. -/
theorem claim_C3_counterexample :
    publishFilter thrC3 [candFailC3] = [] ∧
    ¬ (candFailC3.z_flow < thrC3.z_min ∧ candFailC3.depth_ratio < thrC3.dr_min ∧
       candFailC3.entropy < thrC3.h_min ∧
       (candFailC3.p < thrC3.p_min ∨ thrC3.p_max < candFailC3.p)) := by
  constructor
  · have hnot : ¬ publishKeep thrC3 candFailC3 := by
      intro h
      have h2 := h.1.2
      norm_num [thrC3, candFailC3] at h2
    rw [publishFilter_cons, if_neg hnot, publishFilter_nil]
  · intro h
    have := h.1
    norm_num [thrC3, candFailC3] at this

/-- Claim C3 (amended): the publish filter keeps exactly the ranked entries
satisfying all four threshold conditions — it removes an entry exactly when
the entry fails at least one of them. The example candidate
`{z_flow=3.0, depth_ratio=0.1, entropy=0.5, p=0.5}` passes the thresholds
`{z_min=2.5, dr_min=0.05, h_min=0.45, p ∈ [0.05, 0.95]}`, and the same
candidate with `p = 0.97` is excluded. -/
theorem claim_C3_publish_filter :
    (∀ (t : PublishThresholds) (rs : List Candidate) (r : Candidate), r ∈ rs →
      (r ∈ publishFilter t rs ↔ publishKeep t r)) ∧
    publishFilter thrC3 [candPassC3] = [candPassC3] ∧
    publishFilter thrC3 [candFailC3] = [] := by
  refine ⟨?_, ?_, ?_⟩
  · intro t rs r hr
    simp only [publishFilter, List.mem_filter, decide_eq_true_eq, publishKeep]
    exact ⟨fun h => h.2, fun h => ⟨hr, h⟩⟩
  · have hyes : publishKeep thrC3 candPassC3 := by
      refine ⟨⟨?_, ?_⟩, ?_, ?_, ?_⟩ <;> norm_num [thrC3, candPassC3]
    rw [publishFilter_cons, if_pos hyes, publishFilter_nil]
  · have hnot : ¬ publishKeep thrC3 candFailC3 := by
      intro h
      have h2 := h.1.2
      norm_num [thrC3, candFailC3] at h2
    rw [publishFilter_cons, if_neg hnot, publishFilter_nil]

/-- Witness for C3: the passing example candidate is kept. -/
theorem claim_C3_witness : candPassC3 ∈ publishFilter thrC3 [candPassC3] :=
  (claim_C3_publish_filter.1 thrC3 [candPassC3] candPassC3 (by simp)).mpr
    (by norm_num [publishKeep, thrC3, candPassC3])

/-- Claim C9: `_implied_p` follows the fallback chain, first success wins —
(a) the midpoint of yes bid/ask in cents, which succeeds exactly when both
quotes are present and positive, (b) the quoted yes/mid price, (c) the last
trade price — the winner is divided by 100 and clamped to `[0.001, 0.999]`
(`clampP`); an entity whose whole chain fails on both the nested record and
the fetched detail is skipped (emits no `p`) this cycle, and every emitted
`p` lies in `[0.001, 0.999]`. -/
theorem claim_C9_implied_p :
    (∀ (m : List (String × JVal)) (p : ℝ), implied_p m = some p →
      0.001 ≤ p ∧ p ≤ 0.999) ∧
    (∀ (m : List (String × JVal)) (b a : ℝ),
      to_float (first_present m yesBidKeys) = some b →
      to_float (first_present m yesAskKeys) = some a → 0 < b → 0 < a →
      implied_p m = some (clampP (0.5 * (b + a)))) ∧
    (∀ (m : List (String × JVal)) (y : ℝ), ¬ midpointOk m →
      to_float (first_present m yesPriceKeys) = some y →
      implied_p m = some (clampP y)) ∧
    (∀ (m : List (String × JVal)) (l : ℝ), ¬ midpointOk m →
      to_float (first_present m yesPriceKeys) = none →
      to_float (first_present m lastPriceKeys) = some l →
      implied_p m = some (clampP l)) ∧
    (∀ m : List (String × JVal), ¬ midpointOk m →
      to_float (first_present m yesPriceKeys) = none →
      to_float (first_present m lastPriceKeys) = none →
      implied_p m = none) ∧
    (∀ m d : List (String × JVal),
      (emitted_p m d = none ↔ implied_p m = none ∧ implied_p d = none) ∧
      ∀ p : ℝ, emitted_p m d = some p → 0.001 ≤ p ∧ p ≤ 0.999) := by
  refine ⟨fun m p h => implied_p_range h, ?_, ?_, ?_, ?_, ?_⟩
  · intro m b a hb ha h0b h0a
    rw [implied_p, mid_cents_of_midpoint hb ha h0b h0a, Option.map_some']
  · intro m y hmid hy
    rw [implied_p, mid_cents_of_not_midpoint hmid, priceFallback_of_yes hy,
      Option.map_some']
  · intro m l hmid hy hl
    rw [implied_p, mid_cents_of_not_midpoint hmid, priceFallback_of_none hy, hl,
      Option.map_some']
  · intro m hmid hy hl
    rw [implied_p, mid_cents_of_not_midpoint hmid, priceFallback_of_none hy, hl,
      Option.map_none']
  · intro m d
    constructor
    · unfold emitted_p
      cases hm : implied_p m with
      | none => simp [hm]
      | some q => simp [hm]
    · intro p hp
      unfold emitted_p at hp
      cases hm : implied_p m with
      | none =>
        rw [hm] at hp
        exact implied_p_range hp
      | some q =>
        rw [hm] at hp
        simp only [Option.some.injEq] at hp
        exact hp ▸ implied_p_range hm

/-- Witness for C9: a record quoting `yes_bid = 40`, `yes_ask = 60` cents gets
the clamped midpoint probability. -/
theorem claim_C9_witness : implied_p mBidAsk = some (clampP (0.5 * (40 + 60))) :=
  claim_C9_implied_p.2.1 mBidAsk 40 60 rfl rfl (by norm_num) (by norm_num)

end

end Scanner
